import Mathlib

/-!
Verification development for the expense-tracker core (`src/app.py`).

The Python code is shallowly embedded: Python runtime values appearing in
payloads are modelled by `PyAtom`/`PyVal` (atoms, or flat sequences of atoms,
which covers every value the program's callers construct); Python floats are
modelled as exact rationals `ℚ`; the per-user `expanses.json` document is
modelled by `FileState` (absent / holding a list of entries / corrupt); the
process clock is passed explicitly (`today` string, `DateTime` for
`generate_expense_id`).  Fallible operations return `Except Err`, where
`Err.validation` stands for Python `ValueError` raised by the validators and
`Err.io` for storage failures.
-/

/-- Model of a Python atomic value as used by the program's payloads:
`None`, a string, or a number (Python ints and floats both modelled as `ℚ`). -/
inductive PyAtom where
  | none
  | str (s : String)
  | num (q : ℚ)
deriving DecidableEq

/-- Model of a Python value appearing in a payload field: an atom, or a list
of atoms (payload callers of this program only ever build flat lists). -/
inductive PyVal where
  | atom (a : PyAtom)
  | list (xs : List PyAtom)
deriving DecidableEq

/-- Shorthand for a Python string value. -/
def pstr (s : String) : PyVal := .atom (.str s)

/-- Shorthand for a Python numeric value. -/
def pnum (q : ℚ) : PyVal := .atom (.num q)

/-- Shorthand for Python `None`. -/
def pnone : PyVal := .atom .none

/-- Models Python `str()` on an atom.  Numbers are rendered by `toString`
(the exact digits of Python float repr are irrelevant here: the program only
ever asks whether such a rendering is empty after stripping, and it never is). -/
def atomStr : PyAtom → String
  | .none => "None"
  | .str s => s
  | .num q => toString q

/-- Models Python `str()` on a payload value (list rendering approximates
Python's bracketed form; the inner quoting of `repr` is not reproduced, which
no behaviour of the program depends on). -/
def pyStr : PyVal → String
  | .atom a => atomStr a
  | .list xs => "[" ++ String.intercalate ", " (xs.map atomStr) ++ "]"

/-- Models Python truthiness (`bool(x)`) on the modelled values. -/
def pyTruthy : PyVal → Bool
  | .atom .none => false
  | .atom (.str s) => !(s == "")
  | .atom (.num q) => !(q == 0)
  | .list xs => !xs.isEmpty

/-- Characters stripped by Python `str.strip()` (the ASCII whitespace
characters; the program only ever meets these). -/
def isSpaceB (c : Char) : Bool :=
  c.toNat == 32 || c.toNat == 9 || c.toNat == 10 || c.toNat == 13 ||
  c.toNat == 11 || c.toNat == 12

/-- Models Python `str.strip()` on the character list of a string. -/
def pyStrip (l : List Char) : List Char :=
  ((l.dropWhile isSpaceB).reverse.dropWhile isSpaceB).reverse

/-- Models Python `str.strip()`. -/
def pyStripS (s : String) : String := ⟨pyStrip s.data⟩

/-- Models Python `s.split(",")`: splits at every comma, keeping empty pieces
(so the result always has one more piece than there are commas). -/
def splitComma : List Char → List (List Char)
  | [] => [[]]
  | c :: rest =>
    if c = ',' then [] :: splitComma rest
    else
      match splitComma rest with
      | [] => [[c]]
      | g :: gs => (c :: g) :: gs

/-- Numeric value of a list of decimal digit characters (most significant
first), as accumulated by a left fold. -/
def digitsVal (l : List Char) : Nat :=
  l.foldl (fun a c => a * 10 + (c.toNat - 48)) 0

/-- Decimal digit test (`0`–`9`). -/
def isDigitB (c : Char) : Bool := 48 ≤ c.toNat && c.toNat ≤ 57

/-- Exponent part of a float literal, after the `e`/`E`: an optional sign
followed by at least one digit. -/
def parseExpPart : List Char → Option Int
  | '+' :: r => if r ≠ [] ∧ r.all isDigitB then some (digitsVal r) else Option.none
  | '-' :: r => if r ≠ [] ∧ r.all isDigitB then some (-(digitsVal r : Int)) else Option.none
  | r => if r ≠ [] ∧ r.all isDigitB then some (digitsVal r) else Option.none

/-- The exact rational `±n · 10^e` (built with `mkRat` and integer
arithmetic only, so that it evaluates inside the kernel). -/
def ratFromParts (neg : Bool) (n : Nat) (e : Int) : ℚ :=
  let num : Int := if neg then Int.neg (Int.ofNat n) else Int.ofNat n
  match e with
  | .ofNat k => mkRat (Int.mul num (Int.ofNat (10 ^ k))) 1
  | .negSucc k => mkRat num (10 ^ (k + 1))

/-- Mantissa-and-exponent part of a Python float literal, as digits-value and
decimal exponent: digits, an optional point with further digits (at least one
digit overall), and an optional exponent. -/
def parseMantExp (l : List Char) : Option (Nat × Int) :=
  let ip := l.takeWhile isDigitB
  let rest := l.dropWhile isDigitB
  match rest with
  | [] => if ip ≠ [] then some (digitsVal ip, 0) else Option.none
  | '.' :: r2 =>
    let fp := r2.takeWhile isDigitB
    let rest2 := r2.dropWhile isDigitB
    if ip = [] ∧ fp = [] then Option.none
    else
      let n := digitsVal (ip ++ fp)
      match rest2 with
      | [] => some (n, Int.neg (Int.ofNat fp.length))
      | c :: r3 =>
        if c = 'e' ∨ c = 'E' then
          (parseExpPart r3).map (fun ex => (n, Int.sub ex (Int.ofNat fp.length)))
        else Option.none
  | c :: r2 =>
    if (c = 'e' ∨ c = 'E') ∧ ip ≠ [] then
      (parseExpPart r2).map (fun ex => (digitsVal ip, ex))
    else Option.none

/-- Models Python `float(s)` on a string: surrounding whitespace is stripped,
then an optional sign and a decimal literal with optional fraction and
exponent.  (`inf`/`nan` and digit-group underscores are not modelled; the
program never relies on them.) -/
def parseFloat (s : String) : Option ℚ :=
  match pyStrip s.data with
  | '+' :: r => (parseMantExp r).map (fun p => ratFromParts false p.1 p.2)
  | '-' :: r => (parseMantExp r).map (fun p => ratFromParts true p.1 p.2)
  | r => (parseMantExp r).map (fun p => ratFromParts false p.1 p.2)

/-- Models Python `float(x)` on a payload value: numbers coerce to themselves,
strings are parsed, everything else (`None`, lists) raises. -/
def pyFloat : PyVal → Option ℚ
  | .atom (.num q) => some q
  | .atom (.str s) => parseFloat s
  | _ => Option.none

/-- Error taxonomy: `validation` models Python `ValueError` raised by the
validators, `io` models storage failures (`OSError` / corrupt JSON). -/
inductive Err where
  | validation (msg : String)
  | io (msg : String)
deriving DecidableEq

instance {ε α : Type} [DecidableEq ε] [DecidableEq α] : DecidableEq (Except ε α) := fun x y =>
  match x, y with
  | .ok a, .ok b =>
    if h : a = b then .isTrue (h ▸ rfl) else .isFalse (fun hh => h (Except.ok.inj hh))
  | .error a, .error b =>
    if h : a = b then .isTrue (h ▸ rfl) else .isFalse (fun hh => h (Except.error.inj hh))
  | .ok _, .error _ => .isFalse (fun hh => Except.noConfusion hh)
  | .error _, .ok _ => .isFalse (fun hh => Except.noConfusion hh)

/-- Leap-year rule used by Python's `datetime.date`. -/
def isLeapB (y : Nat) : Bool := (y % 4 == 0 && !(y % 100 == 0)) || y % 400 == 0

/-- Number of days in a month, as enforced by Python's `datetime.date`. -/
def daysInMonth (y m : Nat) : Nat :=
  if m = 2 then (if isLeapB y then 29 else 28)
  else if m = 4 ∨ m = 6 ∨ m = 9 ∨ m = 11 then 30
  else 31

/-- A real calendar date within `datetime.date`'s range. -/
def validYMDB (y m d : Nat) : Bool :=
  1 ≤ y && y ≤ 9999 && 1 ≤ m && m ≤ 12 && 1 ≤ d && d ≤ daysInMonth y m

/-- Models `datetime.date.fromisoformat` in its strict `YYYY-MM-DD` form
(`app.py` line 186): exactly ten characters, four year digits, two month
digits, two day digits, dash separators, and the result must be a real
calendar date. -/
def parseIsoDate (s : String) : Option (Nat × Nat × Nat) :=
  match s.data with
  | [c1, c2, c3, c4, s1, c5, c6, s2, c7, c8] =>
    if s1 == '-' && s2 == '-' && isDigitB c1 && isDigitB c2 && isDigitB c3 &&
        isDigitB c4 && isDigitB c5 && isDigitB c6 && isDigitB c7 && isDigitB c8 then
      let y := ((((c1.toNat - 48) * 10 + (c2.toNat - 48)) * 10 + (c3.toNat - 48)) * 10
        + (c4.toNat - 48))
      let m := (c5.toNat - 48) * 10 + (c6.toNat - 48)
      let d := (c7.toNat - 48) * 10 + (c8.toNat - 48)
      if validYMDB y m d then some (y, m, d) else Option.none
    else Option.none
  | _ => Option.none

/-- `validate_date_iso` (`app.py` 183–188): raises `ValueError` unless the
value parses as a `YYYY-MM-DD` date.  A non-string argument makes
`fromisoformat` raise `TypeError`, which the bare `except` also converts to
the same `ValueError`. -/
def validate_date_iso (v : PyVal) : Except Err Unit :=
  match v with
  | .atom (.str s) =>
    if (parseIsoDate s).isSome then .ok ()
    else .error (.validation "date must be in format YYYY-MM-DD")
  | _ => .error (.validation "date must be in format YYYY-MM-DD")

/-- `validate_amount_positive` (`app.py` 191–200): coerce to float, then
require strict positivity, returning the coerced value. -/
def validate_amount_positive (x : PyVal) : Except Err ℚ :=
  match pyFloat x with
  | Option.none => .error (.validation "amount must be a number")
  | some val => if val ≤ 0 then .error (.validation "amount must be positive") else .ok val

/-- `validate_required_text` (`app.py` 203–207): raises unless the value is
truthy and its string form is non-empty after stripping. -/
def validate_required_text (s : PyVal) (field : String) : Except Err Unit :=
  if !(pyTruthy s) || pyStripS (pyStr s) == "" then .error (.validation (field ++ " is required"))
  else .ok ()

/-- `normalize_tags` (`app.py` 222–232): a list yields its elements
string-coerced and stripped with empties dropped; a string is split on commas,
stripped, empties dropped; anything else yields `[]`. -/
def normalize_tags : PyVal → List String
  | .list xs => (xs.map (fun tag => pyStripS (atomStr tag))).filter (fun s => !(s == ""))
  | .atom (.str s) => ((splitComma s.data).map (fun l => (⟨pyStrip l⟩ : String))).filter
      (fun s => !(s == ""))
  | _ => []

/-- A wall-clock reading at microsecond resolution, as observed by
`datetime.datetime.now()`. -/
structure DateTime where
  year : Nat
  month : Nat
  day : Nat
  hour : Nat
  minute : Nat
  second : Nat
  usec : Nat
deriving DecidableEq

/-- Field bounds of a real clock reading (four-digit year as produced by
`strftime("%Y")` for all dates the running program can observe). -/
def DateTime.Valid (t : DateTime) : Prop :=
  1000 ≤ t.year ∧ t.year ≤ 9999 ∧ 1 ≤ t.month ∧ t.month ≤ 12 ∧ 1 ≤ t.day ∧ t.day ≤ 31 ∧
  t.hour ≤ 23 ∧ t.minute ≤ 59 ∧ t.second ≤ 59 ∧ t.usec ≤ 999999

instance (t : DateTime) : Decidable t.Valid := by
  unfold DateTime.Valid; infer_instance

/-- Total microsecond count of a clock reading under a uniform radix; two
readings compare chronologically exactly when their keys compare. -/
def DateTime.key (t : DateTime) : Nat :=
  (((((t.year * 100 + t.month) * 100 + t.day) * 100 + t.hour) * 100 + t.minute) * 100
    + t.second) * 1000000 + t.usec

/-- Strict chronological order on clock readings. -/
def chronLt (t1 t2 : DateTime) : Prop := t1.key < t2.key

instance (t1 t2 : DateTime) : Decidable (chronLt t1 t2) := by
  unfold chronLt; infer_instance

/-- The decimal digit character for `n` (meaningful for `n ≤ 9`). -/
def dch (n : Nat) : Char := Char.ofNat (48 + n)

/-- Zero-padded fixed-width decimal rendering, most significant digit first
(the behaviour of `strftime`'s zero-padded numeric directives). -/
def padNum : Nat → Nat → List Char
  | 0, _ => []
  | w + 1, n => dch (n / 10 ^ w) :: padNum w (n % 10 ^ w)

/-- Models `now.strftime("%Y%m%d_%H%M%S%f")` (`app.py` 219): zero-padded
year, month, day, an underscore, then hour, minute, second and the
six-digit microsecond field. -/
def fmtTimestamp (t : DateTime) : List Char :=
  padNum 4 t.year ++ (padNum 2 t.month ++ (padNum 2 t.day ++ (['_'] ++
    (padNum 2 t.hour ++ (padNum 2 t.minute ++ (padNum 2 t.second ++ padNum 6 t.usec))))))

/-- `generate_expense_id` (`app.py` 215–219): a fixed `exp_` prefix followed
by the formatted timestamp of the injected clock reading. -/
def generate_expense_id (now : DateTime) : String :=
  "exp_" ++ (⟨fmtTimestamp now⟩ : String)

/-- Python's code-point lexicographic comparison of strings (`<`), on the
character lists. -/
def charListLt : List Char → List Char → Bool
  | _, [] => false
  | [], _ :: _ => true
  | a :: as, b :: bs =>
    if a.toNat < b.toNat then true
    else if b.toNat < a.toNat then false
    else charListLt as bs

/-- Python `s < t` on strings. -/
def pyLtS (s t : String) : Bool := charListLt s.data t.data

/-- Python `s <= t` on strings (total order: not `t < s`). -/
def pyLeS (s t : String) : Bool := !(charListLt t.data s.data)

/-- One persisted expense entry, the JSON object built by `add_expense`
(`app.py` 269–277).  `category`, `description` and `payment_method` keep the
payload values verbatim, hence stay `PyVal`. -/
structure Expense where
  id : String
  date : String
  amount : ℚ
  category : PyVal
  description : PyVal
  payment_method : PyVal
  tags : List String
deriving DecidableEq

/-- The state of a user's `expanses.json` document: absent from disk, present
and well-formed with its entry list, or unreadable/corrupt. -/
inductive FileState where
  | absent
  | valid (items : List Expense)
  | corrupt
deriving DecidableEq

/-- `load_expenses` (`app.py` 157–172): a missing document is created as
`{"expenses": []}` and read as the empty collection; a corrupt or unreadable
document raises an IO-class error; otherwise the entry list is returned.
Returns the collection together with the document state after the call. -/
def load_expenses : FileState → Except Err (List Expense × FileState)
  | .absent => .ok ([], .valid [])
  | .valid items => .ok (items, .valid items)
  | .corrupt => .error (.io "unreadable or corrupt storage")

/-- `save_expenses` (`app.py` 175–179): atomically overwrites the document
with the given collection. -/
def save_expenses (items : List Expense) : FileState := .valid items

/-- The `add_expense` payload dict (`app.py` 236–246): each field is `some v`
when the key is present with value `v`, `none` when the key is absent. -/
structure Payload where
  date : Option PyVal := Option.none
  amount : Option PyVal := Option.none
  category : Option PyVal := Option.none
  description : Option PyVal := Option.none
  payment_method : Option PyVal := Option.none
  tags : Option PyVal := Option.none

/-- Date resolution of `add_expense` (`app.py` 248): `payload.get("date") or
today_iso()` — the payload value when present and truthy, else today. -/
def resolvedDate (p : Payload) (today : String) : PyVal :=
  let d := p.date.getD pnone
  if pyTruthy d then d else pstr today

/-- `add_expense` (`app.py` 236–283) with the clock injected: validates date,
amount and category in order, fills the optional fields, loads the current
collection, appends the freshly built entry and saves.  Returns the result
(`ok` with the new id, or the first error) paired with the document state
after the call. -/
def add_expense (file : FileState) (p : Payload) (today : String) (now : DateTime) :
    Except Err String × FileState :=
  let dateV := resolvedDate p today
  match validate_date_iso dateV with
  | .error e => (.error e, file)
  | .ok _ =>
    match validate_amount_positive (p.amount.getD pnone) with
    | .error e => (.error e, file)
    | .ok amount_val =>
      match validate_required_text (p.category.getD pnone) "category" with
      | .error e => (.error e, file)
      | .ok _ =>
        let desc := p.description.getD (pstr "")
        let method := p.payment_method.getD (pstr "")
        let tags := normalize_tags (p.tags.getD pnone)
        match load_expenses file with
        | .error e => (.error e, file)
        | .ok (items, _) =>
          let eid := generate_expense_id now
          let newExpense : Expense :=
            { id := eid, date := pyStr dateV, amount := amount_val,
              category := p.category.getD pnone, description := desc,
              payment_method := method, tags := tags }
          (.ok eid, save_expenses (items ++ [newExpense]))

/-- The optional filters of `list_expenses` (`app.py` 289–292); a field is
`some` exactly when the corresponding key is present in the filters dict. -/
structure Filters where
  from_date : Option String := Option.none
  to_date : Option String := Option.none
  category : Option PyVal := Option.none

/-- The filtering block of `list_expenses` (`app.py` 297–303): when a filters
dict is given, keep entries with `date >= from_date`, then `date <= to_date`,
then `category ==` the filter category, each only if the key is present. -/
def applyFilters (filters : Option Filters) (items : List Expense) : List Expense :=
  match filters with
  | Option.none => items
  | some f =>
    let i1 := match f.from_date with
      | some d => items.filter (fun e => pyLeS d e.date)
      | Option.none => items
    let i2 := match f.to_date with
      | some d => i1.filter (fun e => pyLeS e.date d)
      | Option.none => i1
    match f.category with
      | some c => i2.filter (fun e => e.category == c)
      | Option.none => i2

/-- The sort key comparison of `list_expenses` (`app.py` 306): Python's
tuple order on `(e["date"], e["id"])`. -/
def keyLtB (a b : Expense) : Bool :=
  charListLt a.date.data b.date.data ||
    (a.date == b.date && charListLt a.id.data b.id.data)

/-- The order in which `items.sort(key=..., reverse=True)` lays out the
result: `a` may precede `b` exactly when `a`'s key is not below `b`'s. -/
def sortRel (a b : Expense) : Prop := keyLtB a b = false

instance : DecidableRel sortRel := fun _ _ => inferInstanceAs (Decidable (_ = false))

/-- The query core of `list_expenses` (`app.py` 294–308) on an in-memory
collection: filter, then stable-sort descending by `(date, id)` (Python's
stable `list.sort` with `reverse=True` is modelled by the stable
`insertionSort` under `sortRel`). -/
def query_expenses (items : List Expense) (filters : Option Filters) : List Expense :=
  List.insertionSort sortRel (applyFilters filters items)

/-- `list_expenses` (`app.py` 286–308): load the user's collection, then
filter and sort it.  The document is never mutated by a listing. -/
def list_expenses (file : FileState) (filters : Option Filters) :
    Except Err (List Expense) :=
  match load_expenses file with
  | .error e => .error e
  | .ok (items, _) => .ok (query_expenses items filters)


/-- A concrete clock reading used by the concrete parts of the theorems. -/
def tDemo : DateTime := ⟨2024, 5, 5, 15, 30, 45, 123000⟩

/-- The entry `add_expense` builds from `{amount: 10, category: "Food"}` on
2024-05-05 at `tDemo`. -/
def eDemo : Expense :=
  { id := "exp_20240505_153045123000", date := "2024-05-05", amount := (10 : ℚ),
    category := pstr "Food", description := pstr "", payment_method := pstr "",
    tags := [] }

/-- An entry with id `exp_a`, for the sort tie-break examples. -/
def eTieA : Expense :=
  { id := "exp_a", date := "2024-01-15", amount := mkRat 1 1, category := pstr "Food",
    description := pstr "", payment_method := pstr "", tags := [] }

/-- An entry with id `exp_b` on the same date as `eTieA`. -/
def eTieB : Expense :=
  { id := "exp_b", date := "2024-01-15", amount := mkRat 2 1, category := pstr "Food",
    description := pstr "", payment_method := pstr "", tags := [] }

/-- Full validity of a stored entry, exactly as the validators enforce it:
the date passes `validate_date_iso`, the amount is strictly positive, the
category passes `validate_required_text`, and every tag is non-empty. -/
def EntryValid (e : Expense) : Prop :=
  (∃ u, validate_date_iso (pstr e.date) = .ok u) ∧ 0 < e.amount ∧
  (∃ u, validate_required_text e.category "category" = .ok u) ∧
  ∀ t ∈ e.tags, t ≠ ""

/-- The entry stored for category `" Food "` (whitespace kept verbatim). -/
def eSpacedFood : Expense :=
  { id := "exp_20240505_153045123000", date := "2024-05-05", amount := (10 : ℚ),
    category := pstr " Food ", description := pstr "", payment_method := pstr "",
    tags := [] }

/-- The spec's description of the listing filter, written as one conjunction:
date at least `from_date` (inclusive, lexical/ISO), date at most `to_date`
(inclusive), category an exact match — each conjunct only when the filter is
present, and everything matches when no filters dict is given. -/
def specMatchesB (filters : Option Filters) (e : Expense) : Bool :=
  match filters with
  | Option.none => true
  | some f =>
    (match f.from_date with | some d => pyLeS d e.date | Option.none => true) &&
    (match f.to_date with | some d => pyLeS e.date d | Option.none => true) &&
    (match f.category with | some c => e.category == c | Option.none => true)

/-- The `YYYY-MM-DD` rendering of a calendar date: the spec's notion of an
ISO date string, used to state what `validate_date_iso` accepts. -/
def renderIsoDate (y m d : Nat) : String :=
  ⟨padNum 4 y ++ '-' :: (padNum 2 m ++ '-' :: padNum 2 d)⟩

/-- A second clock reading one microsecond after `tDemo`. -/
def tDemoNext : DateTime := ⟨2024, 5, 5, 15, 30, 45, 123001⟩

/-- C6: `load_expenses` never fails on a missing document — it creates the
empty `{"expenses": []}` document and returns the empty collection — and it
fails, with an IO-class error, exactly when the stored document is
unreadable or corrupt. -/
theorem load_expenses_spec :
    load_expenses .absent = .ok ([], .valid []) ∧
    load_expenses .corrupt = .error (.io "unreadable or corrupt storage") ∧
    (∀ f : FileState, (∃ e, load_expenses f = .error e) ↔ f = .corrupt) ∧
    (∀ items, load_expenses (.valid items) = .ok (items, .valid items)) := by
  refine ⟨rfl, rfl, ?_, fun items => rfl⟩
  intro f
  cases f <;> simp [load_expenses]

/-- C7: `validate_amount_positive` coerces its argument to a number, fails
when the coercion fails, fails when the coerced value is not strictly
positive (`0` and `-5` are both rejected), and otherwise returns the coerced
value (`"12.5"` yields `12.5`). -/
theorem validate_amount_positive_spec :
    (∀ x : PyVal, pyFloat x = Option.none →
      validate_amount_positive x = .error (.validation "amount must be a number")) ∧
    (∀ x : PyVal, ∀ v : ℚ, pyFloat x = some v → v ≤ 0 →
      validate_amount_positive x = .error (.validation "amount must be positive")) ∧
    (∀ x : PyVal, ∀ v : ℚ, pyFloat x = some v → 0 < v →
      validate_amount_positive x = .ok v) ∧
    validate_amount_positive (pnum 0) = .error (.validation "amount must be positive") ∧
    validate_amount_positive (pnum (-5)) = .error (.validation "amount must be positive") ∧
    validate_amount_positive (pstr "12.5") = .ok (25 / 2 : ℚ) ∧
    validate_amount_positive (pstr "abc") = .error (.validation "amount must be a number") := by
  refine ⟨?_, ?_, ?_, by decide, by decide, ?_, by decide⟩
  · intro x h; simp [validate_amount_positive, h]
  · intro x v h hle; simp [validate_amount_positive, h, if_pos hle]
  · intro x v h hpos; simp [validate_amount_positive, h, if_neg (not_le.mpr hpos)]
  · have h : (25 / 2 : ℚ) = mkRat 25 2 := by norm_num [Rat.mkRat_eq_div]
    rw [h]; decide

/-- Witness for C7 at concrete inputs: `"1.5"` coerces to `3/2 > 0` and is
returned unchanged. -/
theorem validate_amount_positive_spec_witness :
    pyFloat (pstr "1.5") = some (mkRat 3 2) ∧
    validate_amount_positive (pstr "1.5") = .ok (mkRat 3 2) :=
  ⟨by decide, validate_amount_positive_spec.2.2.1 (pstr "1.5") (mkRat 3 2)
    (by decide) (by decide)⟩

/-- C9: `normalize_tags` is total by construction; a sequence input yields
its elements string-coerced and stripped, empties dropped and order
preserved (a sublist of the coerced list); a string input is split on
commas, stripped, empties dropped; any other input yields `[]`. -/
theorem normalize_tags_spec :
    normalize_tags (pstr "a, b ,,c") = ["a", "b", "c"] ∧
    normalize_tags (.list [.str "x", .str " y "]) = ["x", "y"] ∧
    normalize_tags pnone = [] ∧
    (∀ q : ℚ, normalize_tags (pnum q) = []) ∧
    (∀ xs t, t ∈ normalize_tags (.list xs) ↔
      (t ≠ "" ∧ ∃ a ∈ xs, pyStripS (atomStr a) = t)) ∧
    (∀ xs, (normalize_tags (.list xs)).Sublist (xs.map (fun a => pyStripS (atomStr a)))) ∧
    (∀ s t, t ∈ normalize_tags (pstr s) ↔
      (t ≠ "" ∧ ∃ piece ∈ splitComma s.data, (⟨pyStrip piece⟩ : String) = t)) ∧
    (∀ s, (normalize_tags (pstr s)).Sublist
      ((splitComma s.data).map (fun l => (⟨pyStrip l⟩ : String)))) := by
  refine ⟨by decide, by decide, rfl, fun q => rfl, ?_, ?_, ?_, ?_⟩
  · intro xs t
    simp [normalize_tags, List.mem_filter, List.mem_map, and_comm]
  · intro xs
    exact List.filter_sublist _
  · intro s t
    simp [normalize_tags, pstr, List.mem_filter, List.mem_map, and_comm]
  · intro s
    exact List.filter_sublist _

/-- C5 (amended): the resolved date is the payload's `date` value whenever
that field is present *and truthy*; when the field is absent — or present but
falsy (Python `or` semantics) — the injected today is used; a payload with
amount and category but no date persists an entry dated today. -/
theorem resolved_date_spec :
    (∀ (p : Payload) (today : String) (v : PyVal),
      p.date = some v → pyTruthy v = true → resolvedDate p today = v) ∧
    (∀ (p : Payload) (today : String) (v : PyVal),
      p.date = some v → pyTruthy v = false → resolvedDate p today = pstr today) ∧
    (∀ (p : Payload) (today : String),
      p.date = Option.none → resolvedDate p today = pstr today) ∧
    add_expense (.valid []) { amount := some (pnum 10), category := some (pstr "Food") }
      "2024-05-05" tDemo = (.ok "exp_20240505_153045123000", .valid [eDemo]) := by
  refine ⟨?_, ?_, ?_, by decide⟩
  · intro p today v h ht; simp [resolvedDate, h, ht]
  · intro p today v h ht; simp [resolvedDate, h, ht]
  · intro p today h; simp [resolvedDate, h, pnone, pyTruthy]

/-- Witness for C5 (amended) at concrete inputs: a present, truthy date is
used as given. -/
theorem resolved_date_spec_witness :
    ({ date := some (pstr "2024-01-01") } : Payload).date = some (pstr "2024-01-01") ∧
    pyTruthy (pstr "2024-01-01") = true ∧
    resolvedDate { date := some (pstr "2024-01-01") } "2024-09-09" = pstr "2024-01-01" :=
  ⟨rfl, by decide,
    resolved_date_spec.1 { date := some (pstr "2024-01-01") } "2024-09-09"
      (pstr "2024-01-01") rfl (by decide)⟩

/-- C5 counterexample: with the `date` key present but holding the empty
string, the claim as stated would resolve the date to `""` and fail
validation; the code instead succeeds and stores the injected today. -/
theorem resolved_date_claim_counterexample :
    ({ date := some (pstr ""), amount := some (pnum 10), category := some (pstr "Food") } :
        Payload).date = some (pstr "") ∧
    add_expense (.valid [])
      { date := some (pstr ""), amount := some (pnum 10), category := some (pstr "Food") }
      "2024-05-05" tDemo = (.ok "exp_20240505_153045123000", .valid [eDemo]) ∧
    eDemo.date = "2024-05-05" ∧ "2024-05-05" ≠ "" := by
  exact ⟨rfl, by decide, rfl, by decide⟩

/-- An `ok` result of `load_expenses` always pairs the returned collection
with a well-formed document holding exactly that collection. -/
theorem load_expenses_ok_shape {file : FileState} {items : List Expense} {f1 : FileState}
    (h : load_expenses file = .ok (items, f1)) : f1 = .valid items := by
  cases file with
  | absent =>
    injection h with h
    injection h with h1 h2
    rw [← h2, h1]
  | valid its =>
    injection h with h
    injection h with h1 h2
    rw [← h2, h1]
  | corrupt => exact absurd h (by simp [load_expenses])

/-- A value accepted by `validate_date_iso` is a Python string (and hence
equals the string built back from its own `str()` form). -/
theorem validate_date_iso_ok_str {v : PyVal} {u : Unit}
    (h : validate_date_iso v = .ok u) : v = pstr (pyStr v) := by
  cases v with
  | atom a =>
    cases a with
    | str s => rfl
    | none => simp [validate_date_iso] at h
    | num q => simp [validate_date_iso] at h
  | list xs => simp [validate_date_iso] at h

/-- An amount accepted by `validate_amount_positive` is strictly positive. -/
theorem validate_amount_positive_pos {x : PyVal} {v : ℚ}
    (h : validate_amount_positive x = .ok v) : 0 < v := by
  unfold validate_amount_positive at h
  split at h
  · exact absurd h (by simp)
  · split at h
    · exact absurd h (by simp)
    · rename_i hw
      exact (Except.ok.inj h) ▸ lt_of_not_le hw

/-- Every tag produced by `normalize_tags` is a non-empty string. -/
theorem normalize_tags_ne_empty {v : PyVal} {t : String}
    (h : t ∈ normalize_tags v) : t ≠ "" := by
  cases v with
  | list xs =>
    have := (List.mem_filter.mp h).2
    simpa using this
  | atom a =>
    cases a with
    | str s =>
      have := (List.mem_filter.mp h).2
      simpa using this
    | none => simp [normalize_tags, pnone] at h
    | num q => simp [normalize_tags] at h

/-- Shape of a successful `add_expense` call: every validator accepted, the
collection loaded, and the document now holds the loaded collection plus the
one new entry built from the payload, whose id is the returned one. -/
theorem add_expense_ok_shape {file : FileState} {p : Payload} {today : String}
    {now : DateTime} {r : String} {f2 : FileState}
    (h : add_expense file p today now = (.ok r, f2)) :
    ∃ items u0 amount_val u1,
      validate_date_iso (resolvedDate p today) = .ok u0 ∧
      validate_amount_positive (p.amount.getD pnone) = .ok amount_val ∧
      validate_required_text (p.category.getD pnone) "category" = .ok u1 ∧
      load_expenses file = .ok (items, .valid items) ∧
      r = generate_expense_id now ∧
      f2 = .valid (items ++
        [{ id := generate_expense_id now, date := pyStr (resolvedDate p today),
           amount := amount_val, category := p.category.getD pnone,
           description := p.description.getD (pstr ""),
           payment_method := p.payment_method.getD (pstr ""),
           tags := normalize_tags (p.tags.getD pnone) }]) := by
  unfold add_expense at h
  cases hd : validate_date_iso (resolvedDate p today) with
  | error e => simp only [hd] at h; exact absurd h (by simp)
  | ok u0 =>
  simp only [hd] at h
  cases ha : validate_amount_positive (p.amount.getD pnone) with
  | error e => simp only [ha] at h; exact absurd h (by simp)
  | ok amount_val =>
  simp only [ha] at h
  cases hc : validate_required_text (p.category.getD pnone) "category" with
  | error e => simp only [hc] at h; exact absurd h (by simp)
  | ok u1 =>
  simp only [hc] at h
  cases hl : load_expenses file with
  | error e => simp only [hl] at h; exact absurd h (by simp)
  | ok pair =>
  obtain ⟨items, f1⟩ := pair
  simp only [hl, save_expenses] at h
  rw [Prod.mk.injEq] at h
  obtain ⟨h1, h2⟩ := h
  have hshape := load_expenses_ok_shape hl
  exact ⟨items, u0, amount_val, u1, rfl, rfl, rfl, by rw [hshape], (Except.ok.inj h1).symm,
    h2.symm⟩

/-- C1: `add_expense` is atomic — on success the document holds exactly the
prior collection plus one fully-valid new entry whose id is returned; on any
validation or IO error the document is unchanged; in particular the payload
`{amount: "abc", category: "Food"}` fails validation and leaves the
collection as it was. -/
theorem add_expense_atomic :
    (∀ (file : FileState) (p : Payload) (today : String) (now : DateTime) (r : String)
        (f2 : FileState), add_expense file p today now = (.ok r, f2) →
      ∃ items e, load_expenses file = .ok (items, .valid items) ∧
        f2 = .valid (items ++ [e]) ∧ e.id = r ∧ EntryValid e) ∧
    (∀ (file : FileState) (p : Payload) (today : String) (now : DateTime) (err : Err)
        (f2 : FileState), add_expense file p today now = (.error err, f2) → f2 = file) ∧
    add_expense (.valid [eTieA])
      { amount := some (pstr "abc"), category := some (pstr "Food") } "2024-05-05" tDemo =
      (.error (.validation "amount must be a number"), .valid [eTieA]) := by
  refine ⟨?_, ?_, by decide⟩
  · intro file p today now r f2 h
    obtain ⟨items, u0, amount_val, u1, hd, ha, hc, hl, hr, hf2⟩ := add_expense_ok_shape h
    refine ⟨items, _, hl, hf2, hr.symm, ?_, ?_, ?_, ?_⟩
    · exact ⟨u0, by rw [show pstr (pyStr (resolvedDate p today)) =
        resolvedDate p today from (validate_date_iso_ok_str hd).symm, hd]⟩
    · exact validate_amount_positive_pos ha
    · exact ⟨u1, hc⟩
    · intro t ht; exact normalize_tags_ne_empty ht
  · intro file p today now err f2 h
    unfold add_expense at h
    cases hd : validate_date_iso (resolvedDate p today) with
    | error e => simp only [hd] at h; rw [Prod.mk.injEq] at h; exact h.2.symm
    | ok u0 =>
    simp only [hd] at h
    cases ha : validate_amount_positive (p.amount.getD pnone) with
    | error e => simp only [ha] at h; rw [Prod.mk.injEq] at h; exact h.2.symm
    | ok amount_val =>
    simp only [ha] at h
    cases hc : validate_required_text (p.category.getD pnone) "category" with
    | error e => simp only [hc] at h; rw [Prod.mk.injEq] at h; exact h.2.symm
    | ok u1 =>
    simp only [hc] at h
    cases hl : load_expenses file with
    | error e => simp only [hl] at h; rw [Prod.mk.injEq] at h; exact h.2.symm
    | ok pair =>
    obtain ⟨items, f1⟩ := pair
    simp only [hl, save_expenses] at h
    exact absurd h (by simp)

/-- Witness for C1 at a concrete success: adding `{amount: 10, category:
"Food"}` to an empty collection persists exactly one valid entry. -/
theorem add_expense_atomic_witness :
    ∃ items e, load_expenses (.valid []) = .ok (items, .valid items) ∧
      (FileState.valid [eDemo] : FileState) = .valid (items ++ [e]) ∧
      e.id = "exp_20240505_153045123000" ∧ EntryValid e :=
  add_expense_atomic.1 (.valid [])
    { amount := some (pnum 10), category := some (pstr "Food") } "2024-05-05" tDemo
    "exp_20240505_153045123000" (.valid [eDemo]) (by decide)

/-- C10: a persisted entry copies `payload["category"]` verbatim (validation
only checks the trimmed value is non-empty), so an entry added with category
`" Food "` is not returned when filtering on category `"Food"`. -/
theorem category_stored_verbatim :
    (∀ (file : FileState) (p : Payload) (today : String) (now : DateTime) (s : String)
        (r : String) (f2 : FileState),
      p.category = some (pstr s) → add_expense file p today now = (.ok r, f2) →
      ∃ items e, f2 = .valid (items ++ [e]) ∧ e.category = pstr s) ∧
    add_expense (.valid [])
      { amount := some (pnum 10), category := some (pstr " Food ") } "2024-05-05" tDemo =
      (.ok "exp_20240505_153045123000", .valid [eSpacedFood]) ∧
    list_expenses (.valid [eSpacedFood]) (some { category := some (pstr "Food") }) =
      .ok [] := by
  refine ⟨?_, by decide, by decide⟩
  intro file p today now s r f2 hcat h
  obtain ⟨items, u0, amount_val, u1, hd, ha, hc, hl, hr, hf2⟩ := add_expense_ok_shape h
  exact ⟨items, _, hf2, by rw [hcat]; rfl⟩

/-- Witness for C10 at a concrete input: the category `" Food "` is stored
exactly as supplied. -/
theorem category_stored_verbatim_witness :
    ∃ items e, (FileState.valid [eSpacedFood] : FileState) = .valid (items ++ [e]) ∧
      e.category = pstr " Food " :=
  category_stored_verbatim.1 (.valid [])
    { amount := some (pnum 10), category := some (pstr " Food ") } "2024-05-05" tDemo
    " Food " "exp_20240505_153045123000" (.valid [eSpacedFood]) rfl (by decide)

/-- The sequential filtering of the code equals one filter by the spec's
conjunction. -/
theorem applyFilters_eq_filter (fs : Option Filters) (items : List Expense) :
    applyFilters fs items = items.filter (fun e => specMatchesB fs e) := by
  cases fs with
  | none => simp [applyFilters, specMatchesB]
  | some f =>
    obtain ⟨fd, td, cat⟩ := f
    cases fd <;> cases td <;> cases cat <;>
      simp [applyFilters, specMatchesB, List.filter_filter, Bool.and_assoc, Bool.and_comm,
        Bool.and_left_comm]

/-- Characters are equal when their code points are. -/
theorem char_toNat_inj {a b : Char} (h : a.toNat = b.toNat) : a = b := by
  cases a with
  | mk v hv =>
    cases b with
    | mk w hw =>
      have : v = w := UInt32.ext h
      subst this
      rfl

/-- Strings are equal when their character lists are. -/
theorem str_data_inj {s t : String} (h : s.data = t.data) : s = t := by
  cases s; cases t; cases h; rfl

/-- Unfolding equation of `charListLt` at an empty right list. -/
theorem charListLt_nil_right (l : List Char) : charListLt l [] = false := by
  cases l <;> rfl

/-- Unfolding equation of `charListLt` at an empty left list. -/
theorem charListLt_nil_cons (b : Char) (bs : List Char) :
    charListLt [] (b :: bs) = true := rfl

/-- Unfolding equation of `charListLt` on two non-empty lists. -/
theorem charListLt_cons (a b : Char) (as bs : List Char) :
    charListLt (a :: as) (b :: bs) =
      (if a.toNat < b.toNat then true
       else if b.toNat < a.toNat then false else charListLt as bs) := rfl

/-- `charListLt` is irreflexive. -/
theorem charListLt_irrefl : ∀ l : List Char, charListLt l l = false
  | [] => rfl
  | c :: cs => by simp [charListLt_cons, Nat.lt_irrefl, charListLt_irrefl cs]

/-- `charListLt` is asymmetric. -/
theorem charListLt_asymm : ∀ a b : List Char,
    charListLt a b = true → charListLt b a = false
  | a, [], h => by rw [charListLt_nil_right] at h; exact absurd h (by simp)
  | [], _ :: _, _ => rfl
  | a :: as, b :: bs, h => by
    by_cases h1 : a.toNat < b.toNat
    · have h2 : ¬ b.toNat < a.toNat := Nat.lt_asymm h1
      simp [charListLt_cons, h1, h2]
    · by_cases h2 : b.toNat < a.toNat
      · simp [charListLt_cons, h1, h2] at h
      · simp [charListLt_cons, h1, h2] at h ⊢
        exact charListLt_asymm as bs h

/-- Two lists neither of which is below the other are equal. -/
theorem charListLt_eq_of_not : ∀ a b : List Char,
    charListLt a b = false → charListLt b a = false → a = b
  | [], [], _, _ => rfl
  | [], _ :: _, h, _ => by rw [charListLt_nil_cons] at h; exact absurd h (by simp)
  | _ :: _, [], _, h => by rw [charListLt_nil_cons] at h; exact absurd h (by simp)
  | a :: as, b :: bs, h, h2 => by
    by_cases h1 : a.toNat < b.toNat
    · simp [charListLt_cons, h1] at h
    · by_cases h3 : b.toNat < a.toNat
      · simp [charListLt_cons, h3, Nat.lt_asymm h3] at h2
      · simp [charListLt_cons, h1, h3] at h h2
        have hc : a = b := char_toNat_inj (Nat.le_antisymm (Nat.le_of_not_lt h3)
          (Nat.le_of_not_lt h1))
        rw [hc, charListLt_eq_of_not as bs h h2]

/-- Transitivity of the negation of `charListLt` (the string `>=` order). -/
theorem charListLt_neg_trans : ∀ a b c : List Char,
    charListLt a b = false → charListLt b c = false → charListLt a c = false
  | _, _, [], _, _ => charListLt_nil_right _
  | a, [], c :: cs, hab, hbc => by
    rw [charListLt_nil_cons] at hbc; exact absurd hbc (by simp)
  | [], b :: bs, c :: cs, hab, _ => by
    rw [charListLt_nil_cons] at hab; exact absurd hab (by simp)
  | a :: as, b :: bs, c :: cs, hab, hbc => by
    by_cases h1 : a.toNat < b.toNat
    · simp [charListLt_cons, h1] at hab
    · by_cases h2 : b.toNat < c.toNat
      · simp [charListLt_cons, h2] at hbc
      · have hac : ¬ a.toNat < c.toNat := by
          have hba : b.toNat ≤ a.toNat := Nat.le_of_not_lt h1
          have hcb : c.toNat ≤ b.toNat := Nat.le_of_not_lt h2
          omega
        by_cases h3 : c.toNat < a.toNat
        · simp [charListLt_cons, hac, h3]
        · have hba' : ¬ b.toNat < a.toNat := by omega
          have hcb' : ¬ c.toNat < b.toNat := by omega
          simp [charListLt_cons, h1, hba'] at hab
          simp [charListLt_cons, h2, hcb'] at hbc
          simp [charListLt_cons, hac, h3]
          exact charListLt_neg_trans as bs cs hab hbc

/-- The `(date, id)` key comparison is asymmetric. -/
theorem keyLtB_asymm {a b : Expense} (h : keyLtB a b = true) : keyLtB b a = false := by
  unfold keyLtB at h ⊢
  rcases Bool.or_eq_true_iff.mp h with hd | hid
  · have h1 : charListLt b.date.data a.date.data = false := charListLt_asymm _ _ hd
    have h2 : (b.date == a.date) = false := by
      rw [beq_eq_false_iff_ne]
      intro he
      rw [he] at hd
      exact absurd hd (by rw [charListLt_irrefl]; simp)
    rw [h1, h2]
    rfl
  · obtain ⟨heq, hlt⟩ := Bool.and_eq_true_iff.mp hid
    have he : a.date = b.date := by exact eq_of_beq heq
    have h1 : charListLt b.date.data a.date.data = false := by
      rw [he, charListLt_irrefl]
    have h2 : charListLt b.id.data a.id.data = false := charListLt_asymm _ _ hlt
    rw [h1, h2]
    simp

/-- The negation of the `(date, id)` key comparison is transitive. -/
theorem keyLtB_neg_trans {a b c : Expense} (hab : keyLtB a b = false)
    (hbc : keyLtB b c = false) : keyLtB a c = false := by
  unfold keyLtB at hab hbc ⊢
  rw [Bool.or_eq_false_iff] at hab hbc
  obtain ⟨hab1, hab2⟩ := hab
  obtain ⟨hbc1, hbc2⟩ := hbc
  rw [Bool.or_eq_false_iff]
  refine ⟨charListLt_neg_trans _ _ _ hab1 hbc1, ?_⟩
  rw [Bool.and_eq_false_iff] at hab2 hbc2 ⊢
  by_cases heq : a.date = c.date
  · have heq2 : b.date = a.date := by
      have h1 : charListLt b.date.data a.date.data = false := by
        rw [show a.date = c.date from heq] at hab1 ⊢
        exact hbc1
      exact str_data_inj (charListLt_eq_of_not _ _ h1 hab1)
    have hid1 : charListLt a.id.data b.id.data = false := by
      rcases hab2 with h | h
      · rw [beq_eq_false_iff_ne] at h; exact absurd heq2.symm h
      · exact h
    have hid2 : charListLt b.id.data c.id.data = false := by
      rcases hbc2 with h | h
      · rw [beq_eq_false_iff_ne] at h
        exact absurd (heq2.trans heq) h
      · exact h
    exact Or.inr (charListLt_neg_trans _ _ _ hid1 hid2)
  · exact Or.inl (by rw [beq_eq_false_iff_ne]; exact heq)

/-- `sortRel` is total. -/
theorem sortRel_total : ∀ a b : Expense, sortRel a b ∨ sortRel b a := by
  intro a b
  cases hv : keyLtB a b with
  | false => exact Or.inl hv
  | true => exact Or.inr (keyLtB_asymm hv)

/-- `sortRel` is transitive. -/
theorem sortRel_trans : ∀ a b c : Expense, sortRel a b → sortRel b c → sortRel a c :=
  fun _ _ _ => keyLtB_neg_trans

/-- Two adjacent entries laid out by the sort satisfy the claim's descending
`(date, id)` description. -/
theorem sortRel_imp_desc {a b : Expense} (h : sortRel a b) :
    charListLt b.date.data a.date.data = true ∨
      (b.date = a.date ∧ charListLt a.id.data b.id.data = false) := by
  unfold sortRel keyLtB at h
  rw [Bool.or_eq_false_iff] at h
  obtain ⟨h1, h2⟩ := h
  cases hlt : charListLt b.date.data a.date.data with
  | true => exact Or.inl rfl
  | false =>
    have heq : b.date = a.date := str_data_inj (charListLt_eq_of_not _ _ hlt h1)
    refine Or.inr ⟨heq, ?_⟩
    rw [Bool.and_eq_false_iff] at h2
    rcases h2 with h | h
    · rw [beq_eq_false_iff_ne] at h
      exact absurd heq.symm h
    · exact h

/-- C3: the sequence returned by the query engine is sorted by `(date, id)`
descending — adjacent entries have strictly greater date on the left, or the
same date with lexically not-smaller id; ids `exp_b` and `exp_a` on the same
date sort with `exp_b` first. -/
theorem list_expenses_sorted :
    (∀ (items : List Expense) (fs : Option Filters),
      (query_expenses items fs).Pairwise (fun a b =>
        charListLt b.date.data a.date.data = true ∨
          (b.date = a.date ∧ charListLt a.id.data b.id.data = false))) ∧
    query_expenses [eTieA, eTieB] Option.none = [eTieB, eTieA] := by
  refine ⟨?_, by decide⟩
  intro items fs
  haveI : IsTotal Expense sortRel := ⟨sortRel_total⟩
  haveI : IsTrans Expense sortRel := ⟨sortRel_trans⟩
  have hs : List.Sorted sortRel (List.insertionSort sortRel (applyFilters fs items)) :=
    List.sorted_insertionSort sortRel _
  have hq : query_expenses items fs = List.insertionSort sortRel (applyFilters fs items) := rfl
  rw [hq]
  exact hs.imp sortRel_imp_desc

/-- C4: the query engine returns exactly the entries satisfying the
conjunction of the present filters (inclusive lexical date bounds, exact
category match), the full collection when no filter is present, the empty
sequence — not an error — when nothing matches, and `list_expenses` wraps
the query result in a success. -/
theorem list_expenses_filters :
    (∀ (items : List Expense) (fs : Option Filters),
      (query_expenses items fs).Perm (items.filter (fun e => specMatchesB fs e))) ∧
    (∀ items : List Expense, (query_expenses items Option.none).Perm items) ∧
    (∀ (items : List Expense) (fs : Option Filters),
      (∀ e ∈ items, specMatchesB fs e = false) → query_expenses items fs = []) ∧
    (∀ (items : List Expense) (fs : Option Filters),
      list_expenses (.valid items) fs = .ok (query_expenses items fs)) := by
  have hperm : ∀ (items : List Expense) (fs : Option Filters),
      (query_expenses items fs).Perm (items.filter (fun e => specMatchesB fs e)) := by
    intro items fs
    unfold query_expenses
    rw [applyFilters_eq_filter]
    exact List.perm_insertionSort _ _
  refine ⟨hperm, ?_, ?_, fun items fs => rfl⟩
  · intro items
    have h := hperm items Option.none
    simpa [specMatchesB] using h
  · intro items fs hnone
    have h := hperm items fs
    rw [List.filter_eq_nil_iff.mpr (by intro e he; simp [hnone e he])] at h
    exact h.eq_nil

/-- Witness for C4 at a concrete input: a `from_date` past every entry
matches nothing and yields the empty sequence. -/
theorem list_expenses_filters_witness :
    (∀ e ∈ [eTieA, eTieB], specMatchesB (some { from_date := some "2025-01-01" }) e = false) ∧
    query_expenses [eTieA, eTieB] (some { from_date := some "2025-01-01" }) = [] :=
  ⟨by decide, list_expenses_filters.2.2.1 [eTieA, eTieB]
    (some { from_date := some "2025-01-01" }) (by decide)⟩

/-- Code point of a digit character. -/
theorem dch_toNat {k : Nat} (h : k ≤ 9) : (dch k).toNat = 48 + k := by
  interval_cases k <;> decide

/-- Digit characters pass the digit test. -/
theorem isDigitB_dch {k : Nat} (h : k ≤ 9) : isDigitB (dch k) = true := by
  interval_cases k <;> decide

/-- A digit character is rebuilt from its digit value. -/
theorem dch_dv {c : Char} (hc : isDigitB c = true) : dch (c.toNat - 48) = c := by
  have h1 : 48 ≤ c.toNat ∧ c.toNat ≤ 57 := by
    simpa [isDigitB, Bool.and_eq_true, decide_eq_true_eq] using hc
  have h2 : 48 + (c.toNat - 48) = c.toNat := by omega
  rw [dch, h2, Char.ofNat_toNat]

/-- Digit bounds of a character passing the digit test. -/
theorem isDigitB_bounds {c : Char} (hc : isDigitB c = true) :
    48 ≤ c.toNat ∧ c.toNat ≤ 57 := by
  simpa [isDigitB, Bool.and_eq_true, decide_eq_true_eq] using hc

/-- Two-digit expansion of `padNum`. -/
theorem padNum_two (n : Nat) : padNum 2 n = [dch (n / 10), dch (n % 10)] := by
  norm_num [padNum]

/-- Four-digit expansion of `padNum`. -/
theorem padNum_four (n : Nat) : padNum 4 n =
    [dch (n / 1000), dch (n % 1000 / 100), dch (n % 1000 % 100 / 10),
     dch (n % 1000 % 100 % 10)] := by
  norm_num [padNum]

/-- Months have at most 31 days. -/
theorem daysInMonth_le (y m : Nat) : daysInMonth y m ≤ 31 := by
  unfold daysInMonth
  split_ifs <;> omega

/-- Digit decomposition of a four-digit number built from digits. -/
theorem digits4_roundtrip {a b c d : Nat} (_ha : a ≤ 9) (hb : b ≤ 9) (hc : c ≤ 9)
    (hd : d ≤ 9) :
    (((a * 10 + b) * 10 + c) * 10 + d) / 1000 = a ∧
    (((a * 10 + b) * 10 + c) * 10 + d) % 1000 / 100 = b ∧
    (((a * 10 + b) * 10 + c) * 10 + d) % 1000 % 100 / 10 = c ∧
    (((a * 10 + b) * 10 + c) * 10 + d) % 1000 % 100 % 10 = d := by
  omega

/-- Digit decomposition of a two-digit number built from digits. -/
theorem digits2_roundtrip {a b : Nat} (_ha : a ≤ 9) (hb : b ≤ 9) :
    (a * 10 + b) / 10 = a ∧ (a * 10 + b) % 10 = b := by
  omega

/-- Soundness of the date form check: anything it accepts is the rendering
of a real calendar date, with the parsed components. -/
theorem parseIsoDate_sound {s : String} {y m d : Nat}
    (hp : parseIsoDate s = some (y, m, d)) :
    validYMDB y m d = true ∧ s = renderIsoDate y m d := by
  unfold parseIsoDate at hp
  split at hp
  case h_2 => exact absurd hp (by simp)
  case h_1 c1 c2 c3 c4 s1 c5 c6 s2 c7 c8 heq =>
  split at hp
  case isFalse => exact absurd hp (by simp)
  case isTrue hg =>
  dsimp only at hp
  split at hp
  case isFalse => exact absurd hp (by simp)
  case isTrue hval =>
  simp only [Bool.and_eq_true, beq_iff_eq] at hg
  obtain ⟨⟨⟨⟨⟨⟨⟨⟨⟨hs1, hs2⟩, h1⟩, h2⟩, h3⟩, h4⟩, h5⟩, h6⟩, h7⟩, h8⟩ := hg
  have h0 := Option.some.inj hp
  have hy : (((c1.toNat - 48) * 10 + (c2.toNat - 48)) * 10 + (c3.toNat - 48)) * 10
      + (c4.toNat - 48) = y := congrArg Prod.fst h0
  have hm : (c5.toNat - 48) * 10 + (c6.toNat - 48) = m :=
    congrArg Prod.fst (congrArg Prod.snd h0)
  have hd : (c7.toNat - 48) * 10 + (c8.toNat - 48) = d :=
    congrArg Prod.snd (congrArg Prod.snd h0)
  obtain ⟨b1l, b1r⟩ := isDigitB_bounds h1
  obtain ⟨b2l, b2r⟩ := isDigitB_bounds h2
  obtain ⟨b3l, b3r⟩ := isDigitB_bounds h3
  obtain ⟨b4l, b4r⟩ := isDigitB_bounds h4
  obtain ⟨b5l, b5r⟩ := isDigitB_bounds h5
  obtain ⟨b6l, b6r⟩ := isDigitB_bounds h6
  obtain ⟨b7l, b7r⟩ := isDigitB_bounds h7
  obtain ⟨b8l, b8r⟩ := isDigitB_bounds h8
  have d1 : c1.toNat - 48 ≤ 9 := by omega
  have d2 : c2.toNat - 48 ≤ 9 := by omega
  have d3 : c3.toNat - 48 ≤ 9 := by omega
  have d4 : c4.toNat - 48 ≤ 9 := by omega
  have d5 : c5.toNat - 48 ≤ 9 := by omega
  have d6 : c6.toNat - 48 ≤ 9 := by omega
  have d7 : c7.toNat - 48 ≤ 9 := by omega
  have d8 : c8.toNat - 48 ≤ 9 := by omega
  obtain ⟨e1, e2, e3, e4⟩ := @digits4_roundtrip (c1.toNat - 48) (c2.toNat - 48)
    (c3.toNat - 48) (c4.toNat - 48) d1 d2 d3 d4
  obtain ⟨f1, f2⟩ := @digits2_roundtrip (c5.toNat - 48) (c6.toNat - 48) d5 d6
  obtain ⟨g1, g2⟩ := @digits2_roundtrip (c7.toNat - 48) (c8.toNat - 48) d7 d8
  constructor
  · rw [← hy, ← hm, ← hd]; exact hval
  · have hc1 : c1 = dch (y / 1000) := by rw [← hy, e1]; exact (dch_dv h1).symm
    have hc2 : c2 = dch (y % 1000 / 100) := by rw [← hy, e2]; exact (dch_dv h2).symm
    have hc3 : c3 = dch (y % 1000 % 100 / 10) := by rw [← hy, e3]; exact (dch_dv h3).symm
    have hc4 : c4 = dch (y % 1000 % 100 % 10) := by rw [← hy, e4]; exact (dch_dv h4).symm
    have hc5 : c5 = dch (m / 10) := by rw [← hm, f1]; exact (dch_dv h5).symm
    have hc6 : c6 = dch (m % 10) := by rw [← hm, f2]; exact (dch_dv h6).symm
    have hc7 : c7 = dch (d / 10) := by rw [← hd, g1]; exact (dch_dv h7).symm
    have hc8 : c8 = dch (d % 10) := by rw [← hd, g2]; exact (dch_dv h8).symm
    refine str_data_inj ?_
    rw [heq, hc1, hc2, hc3, hc4, hs1, hc5, hc6, hs2, hc7, hc8]
    rw [show (renderIsoDate y m d).data =
      padNum 4 y ++ '-' :: (padNum 2 m ++ '-' :: padNum 2 d) from rfl]
    rw [padNum_four, padNum_two, padNum_two]
    simp

/-- Completeness of the date form check: the rendering of any real calendar
date is accepted and parses back to its components. -/
theorem parseIsoDate_complete {y m d : Nat} (h : validYMDB y m d = true) :
    parseIsoDate (renderIsoDate y m d) = some (y, m, d) := by
  have hb : (1 ≤ y ∧ y ≤ 9999 ∧ 1 ≤ m ∧ m ≤ 12 ∧ 1 ≤ d ∧ d ≤ daysInMonth y m) := by
    have := h
    unfold validYMDB at this
    simp only [Bool.and_eq_true, decide_eq_true_eq] at this
    tauto
  obtain ⟨hy1, hy2, hm1, hm2, hd1, hd2⟩ := hb
  have hdm := daysInMonth_le y m
  have hdata : (renderIsoDate y m d).data =
      [dch (y / 1000), dch (y % 1000 / 100), dch (y % 1000 % 100 / 10),
       dch (y % 1000 % 100 % 10), '-', dch (m / 10), dch (m % 10), '-',
       dch (d / 10), dch (d % 10)] := by
    rw [show (renderIsoDate y m d).data =
      padNum 4 y ++ '-' :: (padNum 2 m ++ '-' :: padNum 2 d) from rfl]
    rw [padNum_four, padNum_two, padNum_two]
    simp
  unfold parseIsoDate
  rw [hdata]
  simp only [isDigitB_dch (show y / 1000 ≤ 9 by omega),
    isDigitB_dch (show y % 1000 / 100 ≤ 9 by omega),
    isDigitB_dch (show y % 1000 % 100 / 10 ≤ 9 by omega),
    isDigitB_dch (show y % 1000 % 100 % 10 ≤ 9 by omega),
    isDigitB_dch (show m / 10 ≤ 9 by omega),
    isDigitB_dch (show m % 10 ≤ 9 by omega),
    isDigitB_dch (show d / 10 ≤ 9 by omega),
    isDigitB_dch (show d % 10 ≤ 9 by omega),
    dch_toNat (show y / 1000 ≤ 9 by omega),
    dch_toNat (show y % 1000 / 100 ≤ 9 by omega),
    dch_toNat (show y % 1000 % 100 / 10 ≤ 9 by omega),
    dch_toNat (show y % 1000 % 100 % 10 ≤ 9 by omega),
    dch_toNat (show m / 10 ≤ 9 by omega),
    dch_toNat (show m % 10 ≤ 9 by omega),
    dch_toNat (show d / 10 ≤ 9 by omega),
    dch_toNat (show d % 10 ≤ 9 by omega),
    beq_self_eq_true, Bool.and_self, Bool.and_true, Bool.true_and, Nat.add_sub_cancel_left,
    if_true]
  have ey : ((y / 1000 * 10 + y % 1000 / 100) * 10 + y % 1000 % 100 / 10) * 10
      + y % 1000 % 100 % 10 = y := by omega
  have em : m / 10 * 10 + m % 10 = m := by omega
  have ed : d / 10 * 10 + d % 10 = d := by omega
  rw [ey, em, ed, h]
  simp

/-- C8: `validate_date_iso` succeeds exactly on the strings that are the
`YYYY-MM-DD` rendering of a real calendar date (month 1–12, day valid for
the month and year, leap years respected); every other string — wrong shape
or a well-formed but non-existent date — is rejected with a validation
error. -/
theorem validate_date_iso_spec :
    ∀ s : String, (∃ u, validate_date_iso (pstr s) = .ok u) ↔
      ∃ y m d, validYMDB y m d = true ∧ s = renderIsoDate y m d := by
  intro s
  constructor
  · intro hok
    obtain ⟨u, hok⟩ := hok
    have hsome : (parseIsoDate s).isSome = true := by
      by_contra hns
      rw [Bool.not_eq_true] at hns
      simp [validate_date_iso, pstr, hns] at hok
    obtain ⟨v, hp⟩ := Option.isSome_iff_exists.mp hsome
    obtain ⟨y, md⟩ := v
    obtain ⟨m, d⟩ := md
    obtain ⟨hval, hs⟩ := parseIsoDate_sound hp
    exact ⟨y, m, d, hval, hs⟩
  · intro hex
    obtain ⟨y, m, d, hval, hs⟩ := hex
    subst hs
    refine ⟨(), ?_⟩
    simp [validate_date_iso, pstr, parseIsoDate_complete hval]

/-- `padNum` always produces exactly its width. -/
theorem padNum_length : ∀ (w n : Nat), (padNum w n).length = w
  | 0, _ => rfl
  | w + 1, n => by simp [padNum, padNum_length w]

/-- Appending after a common prefix preserves the strict string order. -/
theorem charListLt_append_left : ∀ (u xs ys : List Char),
    charListLt xs ys = true → charListLt (u ++ xs) (u ++ ys) = true
  | [], xs, ys, h => h
  | c :: u, xs, ys, h => by
    simp only [List.cons_append, charListLt_cons, Nat.lt_irrefl, if_false]
    exact charListLt_append_left u xs ys h

/-- A strict comparison between equal-length blocks decides the comparison of
any extensions. -/
theorem charListLt_append_of_lt : ∀ (u v xs ys : List Char),
    u.length = v.length → charListLt u v = true →
    charListLt (u ++ xs) (v ++ ys) = true
  | [], [], _, _, _, h => by
    rw [charListLt_nil_right] at h; exact absurd h (by simp)
  | [], _ :: _, _, _, hl, _ => by simp at hl
  | _ :: _, [], _, _, hl, _ => by simp at hl
  | a :: u, b :: v, xs, ys, hl, h => by
    simp only [List.cons_append, charListLt_cons] at h ⊢
    by_cases h1 : a.toNat < b.toNat
    · simp [h1]
    · by_cases h2 : b.toNat < a.toNat
      · simp [h1, h2] at h
      · simp only [h1, h2, if_false] at h ⊢
        exact charListLt_append_of_lt u v xs ys (by simpa using hl) h

/-- Zero-padded renderings of the same width compare like their values. -/
theorem padNum_mono : ∀ (w a b : Nat), a < b → b < 10 ^ w →
    charListLt (padNum w a) (padNum w b) = true
  | 0, a, b, hab, hb => by
    exact absurd hab (by simp at hb; omega)
  | w + 1, a, b, hab, hb => by
    have h10w : 0 < 10 ^ w := pow_pos (by norm_num) w
    have hbw : b < 10 ^ w * 10 := by rw [pow_succ] at hb; exact hb
    have db9 : b / 10 ^ w < 10 := by rw [Nat.div_lt_iff_lt_mul h10w]; omega
    have da9 : a / 10 ^ w < 10 := by rw [Nat.div_lt_iff_lt_mul h10w]; omega
    rcases Nat.lt_or_ge (a / 10 ^ w) (b / 10 ^ w) with hl | hge
    · simp only [padNum, charListLt_cons, dch_toNat (show a / 10 ^ w ≤ 9 by omega),
        dch_toNat (show b / 10 ^ w ≤ 9 by omega)]
      simp [hl]
    · have hde : a / 10 ^ w = b / 10 ^ w :=
        Nat.le_antisymm (Nat.div_le_div_right (Nat.le_of_lt hab)) hge
      have e1 : 10 ^ w * (a / 10 ^ w) + a % 10 ^ w = a := Nat.div_add_mod a (10 ^ w)
      have e2 : 10 ^ w * (a / 10 ^ w) + b % 10 ^ w = b := by
        rw [hde]; exact Nat.div_add_mod b (10 ^ w)
      have hmod : a % 10 ^ w < b % 10 ^ w := by omega
      have hmb : b % 10 ^ w < 10 ^ w := Nat.mod_lt _ h10w
      simp only [padNum, hde, charListLt_cons, Nat.lt_irrefl, if_false]
      exact padNum_mono w _ _ hmod hmb

/-- A chronologically earlier clock reading differs first at some field, all
earlier fields equal (derived from the key order and the field bounds). -/
theorem chron_cases {t1 t2 : DateTime} (h1 : t1.Valid) (h2 : t2.Valid)
    (h : chronLt t1 t2) :
    t1.year < t2.year ∨ (t1.year = t2.year ∧ (t1.month < t2.month ∨ (t1.month = t2.month ∧
    (t1.day < t2.day ∨ (t1.day = t2.day ∧ (t1.hour < t2.hour ∨ (t1.hour = t2.hour ∧
    (t1.minute < t2.minute ∨ (t1.minute = t2.minute ∧ (t1.second < t2.second ∨
    (t1.second = t2.second ∧ t1.usec < t2.usec))))))))))) := by
  unfold chronLt DateTime.key at h
  unfold DateTime.Valid at h1 h2
  omega

/-- Chronological order of valid clock readings gives the strict lexical
order of their `strftime` renderings. -/
theorem fmt_mono {t1 t2 : DateTime} (h1 : t1.Valid) (h2 : t2.Valid) (h : chronLt t1 t2) :
    charListLt (fmtTimestamp t1) (fmtTimestamp t2) = true := by
  have hb1 := h1
  have hb2 := h2
  unfold DateTime.Valid at hb1 hb2
  obtain ⟨y1a, y1b, mo1a, mo1b, d1a, d1b, hr1a, mi1a, s1a, u1a⟩ := hb1
  obtain ⟨y2a, y2b, mo2a, mo2b, d2a, d2b, hr2a, mi2a, s2a, u2a⟩ := hb2
  have hpow2 : (10:ℕ) ^ 2 = 100 := by norm_num
  have hpow4 : (10:ℕ) ^ 4 = 10000 := by norm_num
  have hpow6 : (10:ℕ) ^ 6 = 1000000 := by norm_num
  have hlen2 : ∀ a b : Nat, (padNum 2 a).length = (padNum 2 b).length := by
    intro a b; rw [padNum_length, padNum_length]
  have hlen4 : ∀ a b : Nat, (padNum 4 a).length = (padNum 4 b).length := by
    intro a b; rw [padNum_length, padNum_length]
  unfold fmtTimestamp
  rcases chron_cases h1 h2 h with hy |
    ⟨hy, hmo | ⟨hmo, hd | ⟨hd, hh | ⟨hh, hmi | ⟨hmi, hs | ⟨hs, hu⟩⟩⟩⟩⟩⟩
  · exact charListLt_append_of_lt _ _ _ _ (hlen4 _ _) (padNum_mono 4 _ _ hy (by omega))
  · rw [hy]
    apply charListLt_append_left
    exact charListLt_append_of_lt _ _ _ _ (hlen2 _ _) (padNum_mono 2 _ _ hmo (by omega))
  · rw [hy, hmo]
    apply charListLt_append_left
    apply charListLt_append_left
    exact charListLt_append_of_lt _ _ _ _ (hlen2 _ _) (padNum_mono 2 _ _ hd (by omega))
  · rw [hy, hmo, hd]
    apply charListLt_append_left
    apply charListLt_append_left
    apply charListLt_append_left
    apply charListLt_append_left
    exact charListLt_append_of_lt _ _ _ _ (hlen2 _ _) (padNum_mono 2 _ _ hh (by omega))
  · rw [hy, hmo, hd, hh]
    apply charListLt_append_left
    apply charListLt_append_left
    apply charListLt_append_left
    apply charListLt_append_left
    apply charListLt_append_left
    exact charListLt_append_of_lt _ _ _ _ (hlen2 _ _) (padNum_mono 2 _ _ hmi (by omega))
  · rw [hy, hmo, hd, hh, hmi]
    apply charListLt_append_left
    apply charListLt_append_left
    apply charListLt_append_left
    apply charListLt_append_left
    apply charListLt_append_left
    apply charListLt_append_left
    exact charListLt_append_of_lt _ _ _ _ (hlen2 _ _) (padNum_mono 2 _ _ hs (by omega))
  · rw [hy, hmo, hd, hh, hmi, hs]
    apply charListLt_append_left
    apply charListLt_append_left
    apply charListLt_append_left
    apply charListLt_append_left
    apply charListLt_append_left
    apply charListLt_append_left
    apply charListLt_append_left
    exact padNum_mono 6 _ _ hu (by omega)

/-- String concatenation concatenates the character lists. -/
theorem str_data_append (a b : String) : (a ++ b).data = a.data ++ b.data := by
  cases a
  cases b
  rfl

/-- The strict string order is irreflexive, so comparable lists differ. -/
theorem charListLt_ne {a b : List Char} (h : charListLt a b = true) : a ≠ b := by
  intro he
  subst he
  rw [charListLt_irrefl] at h
  exact absurd h (by simp)

/-- Ids of chronologically ordered valid clock readings are in strict
lexical order. -/
theorem generate_expense_id_mono {t1 t2 : DateTime} (h1 : t1.Valid) (h2 : t2.Valid)
    (h : chronLt t1 t2) :
    pyLtS (generate_expense_id t1) (generate_expense_id t2) = true := by
  unfold pyLtS generate_expense_id
  rw [str_data_append, str_data_append]
  apply charListLt_append_left
  exact fmt_mono h1 h2 h

/-- C2 (amended): each id is the fixed `exp_` prefix followed by the
microsecond-resolution timestamp; `add_expense` returns exactly
`generate_expense_id` of the injected clock; and for any sequence of calls
whose clock readings strictly increase (at least one microsecond apart —
the spec's one-clock-tick condition), the returned ids are in strict lexical
order matching chronological order, hence pairwise distinct. -/
theorem generate_expense_id_spec :
    (∀ t : DateTime, generate_expense_id t = "exp_" ++ (⟨fmtTimestamp t⟩ : String)) ∧
    (∀ (file : FileState) (p : Payload) (today : String) (now : DateTime) (r : String)
        (f2 : FileState), add_expense file p today now = (.ok r, f2) →
      r = generate_expense_id now) ∧
    (∀ ts : List DateTime, (∀ t ∈ ts, t.Valid) → ts.Pairwise chronLt →
      (ts.map generate_expense_id).Pairwise (fun a b => pyLtS a b = true) ∧
      (ts.map generate_expense_id).Pairwise (fun a b => a ≠ b)) := by
  refine ⟨fun t => rfl, ?_, ?_⟩
  · intro file p today now r f2 h
    obtain ⟨items, u0, amount_val, u1, hd, ha, hc, hl, hr, hf2⟩ := add_expense_ok_shape h
    exact hr
  · intro ts hv hp
    have hlt : (ts.map generate_expense_id).Pairwise (fun a b => pyLtS a b = true) := by
      rw [List.pairwise_map]
      exact hp.imp_of_mem (fun ha hb hr =>
        generate_expense_id_mono (hv _ ha) (hv _ hb) hr)
    refine ⟨hlt, hlt.imp ?_⟩
    intro a b hab he
    exact charListLt_ne hab (congrArg String.data he)

/-- Witness for C2 (amended) at two concrete clock readings one microsecond
apart: the two ids are lexically ordered and distinct. -/
theorem generate_expense_id_spec_witness :
    (∀ t ∈ [tDemo, tDemoNext], t.Valid) ∧ ([tDemo, tDemoNext].Pairwise chronLt) ∧
    (([tDemo, tDemoNext].map generate_expense_id).Pairwise (fun a b => pyLtS a b = true) ∧
     ([tDemo, tDemoNext].map generate_expense_id).Pairwise (fun a b => a ≠ b)) :=
  ⟨by decide, by decide,
    generate_expense_id_spec.2.2 [tDemo, tDemoNext] (by decide) (by decide)⟩

/-- C2 counterexample: two sequential `add_expense` calls that observe the
same microsecond clock reading return the identical id, so the ids of N
sequential calls are not unconditionally pairwise distinct. -/
theorem generate_expense_id_claim_counterexample :
    (add_expense (.valid []) { amount := some (pnum 10), category := some (pstr "Food") }
        "2024-05-05" tDemo).1 = .ok "exp_20240505_153045123000" ∧
    (add_expense ((add_expense (.valid [])
        { amount := some (pnum 10), category := some (pstr "Food") }
        "2024-05-05" tDemo).2)
      { amount := some (pnum 10), category := some (pstr "Food") }
      "2024-05-05" tDemo).1 = .ok "exp_20240505_153045123000" := by
  exact ⟨by decide, by decide⟩
